import Mathlib

/-!
Verification of the Azure `delete` command of cloud-credential-operator's ccoctl
(pkg/cmd/provisioning/azure/delete.go), shallowly embedded in Lean 4.

Go `*string` fields are modelled as `Option String` (with `none` for a nil
pointer), `map[string]*string` as an association list, errors as `String`, and
the cloud SDK collaborators as an environment record whose fields give the
outcome of each remote call.  Each embedded function returns the list of
observable events it performed (remote calls and log lines) together with its
outcome; a nil-pointer dereference is a distinguished `panicked` outcome.
-/

/-- Modelled from the spec: the constant `ownedAzureResourceTagKeyPrefix` is
defined elsewhere in the repository (only its use site is in the examined
source).  Per the spec and the source comment, the owned-tag key is
"openshift.io_cloud-credential-operator_<name>". -/
def ownedAzureResourceTagKeyPrefixStr : String := "openshift.io_cloud-credential-operator"

/-- Modelled from the spec: the constant `ownedAzureResourceTagValue` is defined
elsewhere in the repository; per the spec it is the literal sentinel "owned". -/
def ownedAzureResourceTagValue : String := "owned"

/-- Modelled from the spec: the constant `oidcResourceGroupSuffix` is defined
elsewhere in the repository; the spec's end-to-end scenario derives
"cluster1-oidc" from "cluster1", fixing the literal "-oidc". -/
def oidcResourceGroupSuffix : String := "-oidc"

/-- The owned-tag key computed by `deleteManagedIdentities`:
`fmt.Sprintf("%s_%s", ownedAzureResourceTagKeyPrefix, name)`. -/
def ownedTagKeyOf (name : String) : String :=
  ownedAzureResourceTagKeyPrefixStr ++ "_" ++ name

/-- An `armmsi.Identity`: the fields `delete.go` reads.  `Name`, `ID` and
`Type` are Go string pointers, so `Option String`; `Tags` is a
`map[string]*string`, modelled as an association list whose values are
possibly-nil string pointers. -/
structure Identity where
  name : Option String
  id : Option String
  type : Option String
  tags : List (String × Option String)
deriving DecidableEq, Repr

/-- Go map lookup on the modelled tag map: `some v` when the key is present
(with `v` the stored pointer), `none` when absent. -/
def lookupTag (tags : List (String × Option String)) (key : String) : Option (Option String) :=
  (tags.find? (fun p => p.1 == key)).map (fun p => p.2)

/-- The outcome of a computation that dereferences Go pointers: either a value
or a nil-pointer panic. -/
inductive DerefResult (α : Type) where
  | ok (a : α)
  | panic
deriving DecidableEq, Repr

/-- The per-identity ownership test of `deleteManagedIdentities` line 46:
`nameTagValue, found := identity.Tags[ownedTagKey]; found && *nameTagValue ==
ownedAzureResourceTagValue`.  A present key holding a nil pointer is
dereferenced, hence panics. -/
def ownedTagTest (tags : List (String × Option String)) (key : String) : DerefResult Bool :=
  match lookupTag tags key with
  | none => .ok false
  | some none => .panic
  | some (some v) => .ok (v == ownedAzureResourceTagValue)

/-- The filtering of one listed page (the inner `for` of lines 45-49):
identities passing `ownedTagTest` are appended in order; a nil tag pointer
under the key panics. -/
def filterPage (key : String) : List Identity → DerefResult (List Identity)
  | [] => .ok []
  | idRec :: rest =>
    match ownedTagTest idRec.tags key with
    | .panic => .panic
    | .ok b =>
      match filterPage key rest with
      | .panic => .panic
      | .ok l => .ok (if b then idRec :: l else l)

/-- An observable action of the delete command: a remote call against the
cloud provider, or a log line. -/
inductive Event where
  | pageFetch (resourceGroup : String)
  | deleteIdentity (resourceGroup idName : String)
  | deleteStorageAccount (resourceGroup accountName : String)
  | beginDeleteResourceGroup (resourceGroup : String)
  | pollUntilDone (resourceGroup : String) (frequencySeconds : Nat)
  | logLine (s : String)
deriving DecidableEq, Repr

/-- True for the two remote calls of the resource-group deletion path. -/
@[simp] def Event.isResourceGroupCall : Event → Bool
  | .beginDeleteResourceGroup _ => true
  | .pollUntilDone _ _ => true
  | _ => false

/-- True for a managed-identity delete call. -/
@[simp] def Event.isDeleteIdentity : Event → Bool
  | .deleteIdentity _ _ => true
  | _ => false

/-- True for a storage-account delete call. -/
@[simp] def Event.isStorageAccountDelete : Event → Bool
  | .deleteStorageAccount _ _ => true
  | _ => false

/-- True for a log line. -/
@[simp] def Event.isLog : Event → Bool
  | .logLine _ => true
  | _ => false

/-- The `AzureClientWrapper` collaborator, modelled by the predetermined
outcome of each remote call: the pages the managed-identity pager will yield
(`Except.error` for a failing page fetch), and the result of each delete /
begin-delete / poll call. -/
structure AzureClientWrapper where
  pages : List (Except String (List Identity))
  deleteIdentityResult : String → String → Except String Unit
  deleteStorageAccountResult : String → String → Except String Unit
  beginDeleteResult : String → Except String Unit
  pollResult : String → Except String Unit

/-- Result of the discovery phase of `deleteManagedIdentities` (lines 34-50). -/
inductive DiscoverResult where
  | ok (ids : List Identity)
  | err (e : String)
  | panicked
deriving DecidableEq, Repr

/-- The pagination loop (lines 34-50): fetch each page in order, return the
fetch error immediately on failure, otherwise filter the page and accumulate. -/
def discoverPages (key resourceGroupName : String) :
    List (Except String (List Identity)) → List Event × DiscoverResult
  | [] => ([], .ok [])
  | .error e :: _ => ([.pageFetch resourceGroupName], .err e)
  | .ok ids :: rest =>
    match filterPage key ids with
    | .panic => ([.pageFetch resourceGroupName], .panicked)
    | .ok sel =>
      match discoverPages key resourceGroupName rest with
      | (tr, .ok l) => (.pageFetch resourceGroupName :: tr, .ok (sel ++ l))
      | (tr, r) => (.pageFetch resourceGroupName :: tr, r)

/-- Outcome of `deleteManagedIdentities`. -/
inductive MIOutcome where
  | ok
  | err (e : String)
  | panicked
deriving DecidableEq, Repr

/-- The deletion loop of `deleteManagedIdentities` (lines 55-66): for each
discovered identity, dereference `*identity.Name` (panicking on nil), issue
the delete call, abort on its error, then log `"Deleted *Type *ID"`
(dereferencing both pointers, panicking on nil). -/
def deleteLoop (client : AzureClientWrapper) (resourceGroupName : String) :
    List Identity → List Event × MIOutcome
  | [] => ([], .ok)
  | idRec :: rest =>
    match idRec.name with
    | none => ([], .panicked)
    | some nm =>
      match client.deleteIdentityResult resourceGroupName nm with
      | .error e => ([.deleteIdentity resourceGroupName nm], .err e)
      | .ok _ =>
        match idRec.type, idRec.id with
        | some ty, some idStr =>
          match deleteLoop client resourceGroupName rest with
          | (tr, r) =>
            (.deleteIdentity resourceGroupName nm ::
              .logLine ("Deleted " ++ ty ++ " " ++ idStr) :: tr, r)
        | _, _ => ([.deleteIdentity resourceGroupName nm], .panicked)

/-- `deleteManagedIdentities` (lines 27-68): list the user-assigned managed
identities of the resource group, keep those carrying the owned tag, report
(and succeed) when none are found, otherwise delete each in order.  The
`subscriptionID` and `region` parameters are accepted but unused, as in the
source. -/
def deleteManagedIdentities (client : AzureClientWrapper)
    (name resourceGroupName subscriptionID region : String) : List Event × MIOutcome :=
  let ownedTagKey := ownedTagKeyOf name
  match discoverPages ownedTagKey resourceGroupName client.pages with
  | (tr, .err e) => (tr, .err e)
  | (tr, .panicked) => (tr, .panicked)
  | (tr, .ok []) =>
    (tr ++ [.logLine ("Found no user-assigned managed identities with tag key=" ++
      ownedTagKey ++ ", value=" ++ ownedAzureResourceTagValue)], .ok)
  | (tr, .ok ids) =>
    match deleteLoop client resourceGroupName ids with
    | (tr2, r) => (tr ++ tr2, r)

/-- `errors.Wrap(err, msg)` of github.com/pkg/errors: the resulting message is
`msg ++ ": " ++ err`. -/
def errWrap (e msg : String) : String := msg ++ ": " ++ e

/-- `deleteResourceGroup` (lines 70-85): begin the delete (wrapping a failure
with "failed to delete resource group"), then poll until done at a fixed
10-second frequency, returning a poll failure unchanged. -/
def deleteResourceGroup (client : AzureClientWrapper) (resourceGroupName : String) :
    List Event × Except String Unit :=
  match client.beginDeleteResult resourceGroupName with
  | .error e =>
    ([.beginDeleteResourceGroup resourceGroupName],
      .error (errWrap e ("failed to delete resource group")))
  | .ok _ =>
    match client.pollResult resourceGroupName with
    | .error e =>
      ([.beginDeleteResourceGroup resourceGroupName,
        .pollUntilDone resourceGroupName 10], .error e)
    | .ok _ =>
      ([.beginDeleteResourceGroup resourceGroupName,
        .pollUntilDone resourceGroupName 10,
        .logLine ("Deleted resource group " ++ resourceGroupName)], .ok ())

/-- `deleteStorageAccount` (lines 87-98): delete by name within the resource
group, wrapping a failure with "failed to delete storage account". -/
def deleteStorageAccount (client : AzureClientWrapper)
    (resourceGroupName storageAccountName : String) : List Event × Except String Unit :=
  match client.deleteStorageAccountResult resourceGroupName storageAccountName with
  | .error e =>
    ([.deleteStorageAccount resourceGroupName storageAccountName],
      .error (errWrap e ("failed to delete storage account")))
  | .ok _ =>
    ([.deleteStorageAccount resourceGroupName storageAccountName,
      .logLine ("Deleted storage account " ++ storageAccountName)], .ok ())

/-- The `azureOptions` fields read by the delete command (spec §3
`DeleteOptions`): populated once from CLI flags, read-only thereafter. -/
structure azureOptions where
  Name : String
  Region : String
  SubscriptionID : String
  OIDCResourceGroupName : String
  StorageAccountName : String
  DeleteOIDCResourceGroup : Bool
  DryRun : Bool
deriving DecidableEq, Repr

/-- Modelled from the spec: `validateStorageAccountName` is defined elsewhere
in the repository (only its call site at line 120 is in the examined source).
Per spec §4.1 it fails when the length is outside [3,24] or when any character
is not a lowercase ASCII letter or digit. -/
def validateStorageAccountName (s : String) : Except String Unit :=
  if s.length < 3 || 24 < s.length then
    .error ("invalid storage account name " ++ s ++ ": must be between 3 and 24 characters")
  else if s.toList.all (fun c => c.isLower || c.isDigit) then
    .ok ()
  else
    .error ("invalid storage account name " ++ s ++ ": may contain numbers and lowercase letters only")

/-- The OIDC resource-group name defaulting of `deleteCmd` lines 111-114:
an empty override is replaced by `Name ++ oidcResourceGroupSuffix`; a
non-empty override is kept verbatim. -/
def deriveOIDCResourceGroupName (name override : String) : String :=
  if override == "" then name ++ oidcResourceGroupSuffix else override

/-- The storage-account name defaulting of `deleteCmd` lines 116-119: an empty
override is replaced by `Name`; a non-empty override is kept verbatim. -/
def deriveStorageAccountName (name override : String) : String :=
  if override == "" then name else override

/-- The environment of one `deleteCmd` run: the outcome of credential
creation, of client-wrapper construction, and the collaborator client. -/
structure DeleteEnv where
  credResult : Except String Unit
  clientOk : Bool
  client : AzureClientWrapper

/-- The informational log lines of the name-defaulting steps of `deleteCmd`
lines 111-119, emitted when the corresponding override flag is empty. -/
def defaultingLogs (opts : azureOptions) : List Event :=
  (if opts.OIDCResourceGroupName == "" then
    [Event.logLine ("No --oidc-resource-group-name provided, defaulting OIDC resource group name to " ++
      deriveOIDCResourceGroupName opts.Name opts.OIDCResourceGroupName)]
  else []) ++
  (if opts.StorageAccountName == "" then
    [Event.logLine ("No --storage-account-name provided, defaulting storage account name to " ++
      deriveStorageAccountName opts.Name opts.StorageAccountName)]
  else [])

/-- Outcome of a `deleteCmd` run: normal return, `log.Fatal` process
termination carrying the logged error, or a runtime panic. -/
inductive CmdOutcome where
  | completed
  | fatal (e : String)
  | panicked
deriving DecidableEq, Repr

/-- `deleteCmd` (lines 100-153): credential and client construction (fatal on
failure), name defaulting with informational logs, storage-account name
validation (fatal on failure), then either the resource-group deletion path
(returning immediately) when `DeleteOIDCResourceGroup` is set, or the
fine-grained path: managed identities first, storage account second. -/
def deleteCmd (opts : azureOptions) (env : DeleteEnv) : List Event × CmdOutcome :=
  match env.credResult with
  | .error e => ([], .fatal e)
  | .ok _ =>
    if !env.clientOk then ([], .fatal ("Failed to create Azure client"))
    else
      let oidcRG := deriveOIDCResourceGroupName opts.Name opts.OIDCResourceGroupName
      let storageAccountName := deriveStorageAccountName opts.Name opts.StorageAccountName
      let defaultLogs := defaultingLogs opts
      match validateStorageAccountName storageAccountName with
      | .error e => (defaultLogs, .fatal e)
      | .ok _ =>
        if opts.DeleteOIDCResourceGroup then
          match deleteResourceGroup env.client oidcRG with
          | (tr, .error e) => (defaultLogs ++ tr, .fatal e)
          | (tr, .ok _) => (defaultLogs ++ tr, .completed)
        else
          match deleteManagedIdentities env.client opts.Name oidcRG
              opts.SubscriptionID opts.Region with
          | (tr, .err e) => (defaultLogs ++ tr, .fatal e)
          | (tr, .panicked) => (defaultLogs ++ tr, .panicked)
          | (tr, .ok) =>
            match deleteStorageAccount env.client oidcRG storageAccountName with
            | (tr2, .error e) => (defaultLogs ++ tr ++ tr2, .fatal e)
            | (tr2, .ok _) => (defaultLogs ++ tr ++ tr2, .completed)

/-- Holds of an event list in which no managed-identity delete call occurs
after a storage-account delete call. -/
def noIdentityAfterStorage : List Event → Bool
  | [] => true
  | ev :: rest =>
    (if ev.isStorageAccountDelete then rest.all (fun e => ! e.isDeleteIdentity) else true)
      && noIdentityAfterStorage rest

/-- The implicit precondition under which `deleteManagedIdentities` cannot
panic: every identity of an ok page whose tag map contains the owned key holds
a non-nil value pointer there, and every identity passing the ownership test
has non-nil `Name`, `Type` and `ID`. -/
def MIPrecond (client : AzureClientWrapper) (name : String) : Prop :=
  ∀ ids, Except.ok ids ∈ client.pages → ∀ idRec ∈ ids,
    lookupTag idRec.tags (ownedTagKeyOf name) ≠ some none ∧
    (ownedTagTest idRec.tags (ownedTagKeyOf name) = .ok true →
      idRec.name ≠ none ∧ idRec.type ≠ none ∧ idRec.id ≠ none)

/-- A managed identity carrying the owned tag for name "cluster1", with all
pointer fields populated. -/
def ownedIdentity : Identity :=
  { name := some ("cluster1-azure-mi"), id := some ("/subscriptions/s/mi1")
    type := some ("Microsoft.ManagedIdentity/userAssignedIdentities")
    tags := [(ownedTagKeyOf ("cluster1"), some ("owned"))] }

/-- A managed identity without the owned tag. -/
def unownedIdentity : Identity :=
  { name := some ("other-mi"), id := some ("/subscriptions/s/mi2")
    type := some ("Microsoft.ManagedIdentity/userAssignedIdentities")
    tags := [(("team"), some ("dev"))] }

/-- A managed identity carrying the owned tag but with nil `Name`, `ID` and
`Type` pointers. -/
def nilNameIdentity : Identity :=
  { name := none, id := none, type := none
    tags := [(ownedTagKeyOf ("cluster1"), some ("owned"))] }

/-- A collaborator client whose every remote call succeeds; one page lists one
owned and one unowned identity. -/
def okClient : AzureClientWrapper :=
  { pages := [Except.ok [ownedIdentity, unownedIdentity]]
    deleteIdentityResult := fun _ _ => .ok ()
    deleteStorageAccountResult := fun _ _ => .ok ()
    beginDeleteResult := fun _ => .ok ()
    pollResult := fun _ => .ok () }

/-- A client whose managed-identity delete call fails. -/
def failIdentityClient : AzureClientWrapper :=
  { okClient with deleteIdentityResult := fun _ _ => .error ("boom") }

/-- A client whose single page holds no owned identity. -/
def emptyClient : AzureClientWrapper :=
  { okClient with pages := [Except.ok [unownedIdentity]] }

/-- A client whose resource-group deletion poll fails. -/
def pollFailClient : AzureClientWrapper :=
  { okClient with pollResult := fun _ => .error ("context deadline exceeded") }

/-- A client listing an owned identity with nil pointer fields. -/
def badIdentityClient : AzureClientWrapper :=
  { okClient with pages := [Except.ok [nilNameIdentity]] }

/-- A client listing a single well-formed owned identity. -/
def goodMIClient : AzureClientWrapper :=
  { okClient with pages := [Except.ok [ownedIdentity]] }

/-- A concrete configuration for witnesses: name "cluster1", no overrides. -/
def wOpts : azureOptions :=
  { Name := ("cluster1"), Region := ("eastus"), SubscriptionID := ("12345678")
    OIDCResourceGroupName := "", StorageAccountName := ""
    DeleteOIDCResourceGroup := false, DryRun := false }

/-- A delete-command environment around a given client, with credential and
client construction succeeding. -/
def wEnv (c : AzureClientWrapper) : DeleteEnv :=
  { credResult := .ok (), clientOk := true, client := c }

/-- Every event of the discovery phase is a page fetch against the resource
group. -/
theorem mem_discoverPages_trace {key rg : String} {ps : List (Except String (List Identity))}
    {ev : Event} (h : ev ∈ (discoverPages key rg ps).1) : ev = .pageFetch rg := by
  induction ps with
  | nil => simp [discoverPages] at h
  | cons p rest ih =>
    rcases p with e | ids
    · simp [discoverPages] at h
      exact h
    · rw [discoverPages] at h
      rcases hf : filterPage key ids with sel | _
      · rcases hd : discoverPages key rg rest with ⟨tr, r⟩
        rw [hf, hd] at h
        rcases r with l | e | _ <;>
          · simp at h
            rcases h with h | h
            · exact h
            · exact ih (by rw [hd]; exact h)
      · rw [hf] at h
        simp at h
        exact h

/-- Every event of the deletion loop is a managed-identity delete call or a
log line. -/
theorem mem_deleteLoop_trace {c : AzureClientWrapper} {rg : String} {ids : List Identity}
    {ev : Event} (h : ev ∈ (deleteLoop c rg ids).1) :
    ev.isDeleteIdentity = true ∨ ev.isLog = true := by
  induction ids with
  | nil => simp [deleteLoop] at h
  | cons idRec rest ih =>
    rw [deleteLoop] at h
    rcases hn : idRec.name with _ | nm
    · simp only [hn] at h
      simp at h
    · simp only [hn] at h
      rcases hdel : c.deleteIdentityResult rg nm with e | u
      · simp only [hdel] at h
        simp at h
        subst h
        left; rfl
      · simp only [hdel] at h
        rcases ht : idRec.type with _ | ty <;> rcases hid : idRec.id with _ | idStr <;>
          simp only [ht, hid] at h
        · simp at h; subst h; left; rfl
        · simp at h; subst h; left; rfl
        · simp at h; subst h; left; rfl
        · rcases hl : deleteLoop c rg rest with ⟨tr, r⟩
          simp only [hl] at h
          simp at h
          rcases h with h | h | h
          · subst h; left; rfl
          · subst h; right; rfl
          · exact ih (by rw [hl]; exact h)

/-- Every event of `deleteManagedIdentities` is a page fetch against the
resource group, an identity delete call, or a log line. -/
theorem mem_deleteManagedIdentities_trace {c : AzureClientWrapper}
    {name rg sub region : String} {ev : Event}
    (h : ev ∈ (deleteManagedIdentities c name rg sub region).1) :
    ev = .pageFetch rg ∨ ev.isDeleteIdentity = true ∨ ev.isLog = true := by
  rw [deleteManagedIdentities] at h
  rcases hd : discoverPages (ownedTagKeyOf name) rg c.pages with ⟨tr, r⟩
  have htr : ∀ x, x ∈ tr → x = Event.pageFetch rg := by
    intro x hx
    exact mem_discoverPages_trace (by rw [hd]; exact hx)
  rw [hd] at h
  rcases r with l | e | _
  · rcases l with _ | ⟨a, l'⟩
    · simp at h
      rcases h with h | h
      · exact Or.inl (htr ev h)
      · subst h; right; right; rfl
    · rcases hl : deleteLoop c rg (a :: l') with ⟨tr2, r2⟩
      simp only [hl] at h
      simp at h
      rcases h with h | h
      · exact Or.inl (htr ev h)
      · exact Or.inr (mem_deleteLoop_trace (by rw [hl]; exact h))
  · exact Or.inl (htr ev h)
  · exact Or.inl (htr ev h)

/-- Every event of `deleteResourceGroup` is one of its two remote calls or a
log line. -/
theorem mem_deleteResourceGroup_trace {c : AzureClientWrapper} {rg : String} {ev : Event}
    (h : ev ∈ (deleteResourceGroup c rg).1) :
    ev.isResourceGroupCall = true ∨ ev.isLog = true := by
  rw [deleteResourceGroup] at h
  rcases hb : c.beginDeleteResult rg with e | u
  · rw [hb] at h
    simp at h
    subst h; left; rfl
  · rw [hb] at h
    rcases hp : c.pollResult rg with e | u <;> rw [hp] at h <;> simp at h <;>
      rcases h with h | h
    · subst h; left; rfl
    · subst h; left; rfl
    · subst h; left; rfl
    · rcases h with h | h
      · subst h; left; rfl
      · subst h; right; rfl

/-- Every event of `deleteStorageAccount` is the storage delete call or a log
line. -/
theorem mem_deleteStorageAccount_trace {c : AzureClientWrapper} {rg sa : String} {ev : Event}
    (h : ev ∈ (deleteStorageAccount c rg sa).1) :
    ev.isStorageAccountDelete = true ∨ ev.isLog = true := by
  rw [deleteStorageAccount] at h
  rcases hs : c.deleteStorageAccountResult rg sa with e | u <;> rw [hs] at h <;> simp at h
  · subst h; left; rfl
  · rcases h with h | h
    · subst h; left; rfl
    · subst h; right; rfl

/-- Every event of the defaulting step is a log line. -/
theorem mem_defaultingLogs_trace {opts : azureOptions} {ev : Event}
    (h : ev ∈ defaultingLogs opts) : ev.isLog = true := by
  rw [defaultingLogs, List.mem_append] at h
  rcases h with h | h <;> split at h <;> simp at h <;> subst h <;> rfl

/-- A page all of whose identities avoid a nil tag pointer under the key is
filtered without a panic. -/
theorem filterPage_ok_of {key : String} {p : List Identity}
    (h : ∀ idRec ∈ p, lookupTag idRec.tags key ≠ some none) :
    ∃ l, filterPage key p = .ok l := by
  induction p with
  | nil => exact ⟨[], rfl⟩
  | cons idRec rest ih =>
    obtain ⟨l, hl⟩ := ih (fun x hx => h x (List.mem_cons_of_mem _ hx))
    have hhead := h idRec (List.mem_cons_self _ _)
    rw [filterPage]
    rcases hlk : lookupTag idRec.tags key with _ | v
    · refine ⟨if false then idRec :: l else l, ?_⟩
      simp [ownedTagTest, hlk, hl]
    · rcases v with _ | s
      · exact absurd hlk hhead
      · refine ⟨if s == ownedAzureResourceTagValue then idRec :: l else l, ?_⟩
        simp [ownedTagTest, hlk, hl]

/-- Membership in a filtered page: an identity is selected iff it occurs on
the page and passes the ownership test. -/
theorem filterPage_mem {key : String} {p sel : List Identity}
    (h : filterPage key p = .ok sel) (a : Identity) :
    a ∈ sel ↔ a ∈ p ∧ ownedTagTest a.tags key = .ok true := by
  induction p generalizing sel with
  | nil =>
    rw [filterPage] at h
    injection h with h
    subst h
    simp
  | cons idRec rest ih =>
    rw [filterPage] at h
    rcases ht : ownedTagTest idRec.tags key with b | _
    · simp only [ht] at h
      rcases hrec : filterPage key rest with l | _
      · simp only [hrec] at h
        injection h with h
        subst h
        have hih := ih hrec
        rcases b with _ | _
        · rw [if_neg (by simp)]
          rw [hih]
          constructor
          · rintro ⟨hm, htest⟩
            exact ⟨List.mem_cons_of_mem _ hm, htest⟩
          · rintro ⟨hm, htest⟩
            rcases List.mem_cons.mp hm with rfl | hm
            · rw [ht] at htest
              injection htest with htest
              exact absurd htest.symm (by decide)
            · exact ⟨hm, htest⟩
        · rw [if_pos rfl]
          rw [List.mem_cons, hih]
          constructor
          · rintro (rfl | ⟨hm, htest⟩)
            · exact ⟨List.mem_cons_self _ _, ht⟩
            · exact ⟨List.mem_cons_of_mem _ hm, htest⟩
          · rintro ⟨hm, htest⟩
            rcases List.mem_cons.mp hm with rfl | hm
            · exact Or.inl rfl
            · exact Or.inr ⟨hm, htest⟩
      · simp only [hrec] at h
        simp at h
    · simp only [ht] at h
      simp at h

/-- The discovery phase never panics when no listed identity holds a nil tag
pointer under the key. -/
theorem discoverPages_no_panic {key rg : String} {ps : List (Except String (List Identity))}
    (h : ∀ ids, Except.ok ids ∈ ps → ∀ idRec ∈ ids, lookupTag idRec.tags key ≠ some none) :
    (discoverPages key rg ps).2 ≠ .panicked := by
  induction ps with
  | nil => simp [discoverPages]
  | cons p rest ih =>
    rcases p with e | ids
    · simp [discoverPages]
    · have hih := ih (fun ids' hin => h ids' (List.mem_cons_of_mem _ hin))
      obtain ⟨l, hl⟩ := filterPage_ok_of (h ids (List.mem_cons_self _ _))
      rw [discoverPages, hl]
      rcases hd : discoverPages key rg rest with ⟨tr, r⟩
      rw [hd] at hih
      rcases r with l' | e | _ <;> simp [hd]
      exact hih rfl

/-- An identity accumulated by a successful discovery occurs on some fetched
page and passes the ownership test. -/
theorem discoverPages_ok_mem {key rg : String} {ps : List (Except String (List Identity))}
    {tr : List Event} {l : List Identity} {a : Identity}
    (h : discoverPages key rg ps = (tr, .ok l)) (ha : a ∈ l) :
    ∃ ids, Except.ok ids ∈ ps ∧ a ∈ ids ∧ ownedTagTest a.tags key = .ok true := by
  induction ps generalizing tr l with
  | nil =>
    rw [discoverPages] at h
    injection h with h1 h2
    injection h2 with h2
    subst h2
    simp at ha
  | cons p rest ih =>
    rcases p with e | ids
    · rw [discoverPages] at h
      injection h with h1 h2
      exact absurd h2.symm (by simp)
    · rw [discoverPages] at h
      rcases hf : filterPage key ids with sel | _
      · simp only [hf] at h
        rcases hd : discoverPages key rg rest with ⟨tr', r'⟩
        simp only [hd] at h
        rcases r' with l' | e | _
        · injection h with h1 h2
          injection h2 with h2
          subst h2
          rcases List.mem_append.mp ha with hm | hm
          · exact ⟨ids, List.mem_cons_self _ _,
              ((filterPage_mem hf a).mp hm).1, ((filterPage_mem hf a).mp hm).2⟩
          · obtain ⟨ids', hin, hmem, htest⟩ := ih hd hm
            exact ⟨ids', List.mem_cons_of_mem _ hin, hmem, htest⟩
        · injection h with h1 h2
          exact absurd h2.symm (by simp)
        · injection h with h1 h2
          exact absurd h2.symm (by simp)
      · simp only [hf] at h
        injection h with h1 h2
        exact absurd h2.symm (by simp)

/-- The deletion loop never panics when every identity it visits has non-nil
`Name`, `Type` and `ID`. -/
theorem deleteLoop_no_panic {c : AzureClientWrapper} {rg : String} {ids : List Identity}
    (h : ∀ idRec ∈ ids, idRec.name ≠ none ∧ idRec.type ≠ none ∧ idRec.id ≠ none) :
    (deleteLoop c rg ids).2 ≠ .panicked := by
  induction ids with
  | nil => simp [deleteLoop]
  | cons idRec rest ih =>
    obtain ⟨hn, ht, hid⟩ := h idRec (List.mem_cons_self _ _)
    have hih := ih (fun x hx => h x (List.mem_cons_of_mem _ hx))
    rw [deleteLoop]
    rcases hn' : idRec.name with _ | nm
    · exact absurd hn' hn
    · rcases hdel : c.deleteIdentityResult rg nm with e | u
      · simp [hn', hdel]
      · rcases ht' : idRec.type with _ | ty
        · exact absurd ht' ht
        · rcases hid' : idRec.id with _ | idStr
          · exact absurd hid' hid
          · rcases hl : deleteLoop c rg rest with ⟨tr, r⟩
            rw [hl] at hih
            simp at hih
            simp [hn', hdel, ht', hid', hl]
            exact hih

/-- Discovery over ok pages followed by a failing fetch returns the fetch
error, with a page-fetch-only trace. -/
theorem discoverPages_error {key rg e : String} {okPages : List (List Identity)}
    {rest : List (Except String (List Identity))}
    (h : ∀ p ∈ okPages, ∀ idRec ∈ p, lookupTag idRec.tags key ≠ some none) :
    (discoverPages key rg (okPages.map Except.ok ++ Except.error e :: rest)).2 = .err e := by
  induction okPages with
  | nil => simp [discoverPages]
  | cons p ps ih =>
    have hih := ih (fun p' hp' => h p' (List.mem_cons_of_mem _ hp'))
    obtain ⟨l, hl⟩ := filterPage_ok_of (h p (List.mem_cons_self _ _))
    rw [List.map_cons, List.cons_append, discoverPages, hl]
    rcases hd : discoverPages key rg (ps.map Except.ok ++ Except.error e :: rest) with ⟨tr, r⟩
    rw [hd] at hih
    simp at hih
    subst hih
    simp

/-- A trace without storage-account delete calls trivially has no identity
delete after a storage delete. -/
theorem noIdentityAfterStorage_of_no_storage {l : List Event}
    (h : ∀ ev ∈ l, ev.isStorageAccountDelete = false) :
    noIdentityAfterStorage l = true := by
  induction l with
  | nil => rfl
  | cons ev rest ih =>
    rw [noIdentityAfterStorage, h ev (List.mem_cons_self _ _)]
    simp [ih (fun x hx => h x (List.mem_cons_of_mem _ hx))]

/-- A trace without identity delete calls has no identity delete after a
storage delete. -/
theorem noIdentityAfterStorage_of_no_identity {l : List Event}
    (h : ∀ ev ∈ l, ev.isDeleteIdentity = false) :
    noIdentityAfterStorage l = true := by
  induction l with
  | nil => rfl
  | cons ev rest ih =>
    have hrest : ∀ x ∈ rest, x.isDeleteIdentity = false :=
      fun x hx => h x (List.mem_cons_of_mem _ hx)
    have hall : rest.all (fun e => ! e.isDeleteIdentity) = true := by
      rw [List.all_eq_true]
      intro x hx
      rw [hrest x hx]
      rfl
    rw [noIdentityAfterStorage]
    rcases hs : ev.isStorageAccountDelete <;> simp [hall, ih hrest] <;> exact hrest

/-- Storage-free events followed by identity-free events never place an
identity delete after a storage delete. -/
theorem noIdentityAfterStorage_append {l₁ l₂ : List Event}
    (h₁ : ∀ ev ∈ l₁, ev.isStorageAccountDelete = false)
    (h₂ : ∀ ev ∈ l₂, ev.isDeleteIdentity = false) :
    noIdentityAfterStorage (l₁ ++ l₂) = true := by
  induction l₁ with
  | nil => simpa using noIdentityAfterStorage_of_no_identity h₂
  | cons ev rest ih =>
    rw [List.cons_append, noIdentityAfterStorage, h₁ ev (List.mem_cons_self _ _)]
    simp [ih (fun x hx => h₁ x (List.mem_cons_of_mem _ hx))]

/-- Discovery over ok pages that all filter to nothing returns the empty list
and a trace of one page fetch per page. -/
theorem discoverPages_all_empty {key rg : String} {okPages : List (List Identity)}
    (h : ∀ p ∈ okPages, filterPage key p = .ok []) :
    discoverPages key rg (okPages.map Except.ok) =
      (okPages.map (fun _ => Event.pageFetch rg), .ok []) := by
  induction okPages with
  | nil => simp [discoverPages]
  | cons p ps ih =>
    have hih := ih (fun p' hp' => h p' (List.mem_cons_of_mem _ hp'))
    rw [List.map_cons, discoverPages, h p (List.mem_cons_self _ _), hih]
    simp

/-- Classification of the events of a `deleteCmd` run: a log line; a
resource-group call (group path only); or a page fetch against the derived
OIDC resource group, an identity delete, or a storage delete (fine-grained
path only). -/
theorem mem_deleteCmd_trace {opts : azureOptions} {env : DeleteEnv} {ev : Event}
    (h : ev ∈ (deleteCmd opts env).1) :
    ev.isLog = true ∨
    (opts.DeleteOIDCResourceGroup = true ∧ ev.isResourceGroupCall = true) ∨
    (opts.DeleteOIDCResourceGroup = false ∧
      (ev = .pageFetch (deriveOIDCResourceGroupName opts.Name opts.OIDCResourceGroupName) ∨
        ev.isDeleteIdentity = true ∨ ev.isStorageAccountDelete = true)) := by
  rw [deleteCmd] at h
  rcases hcr : env.credResult with e | u
  · simp only [hcr] at h
    simp at h
  · simp only [hcr] at h
    rcases hcl : env.clientOk with _ | _
    · simp only [hcl] at h
      simp at h
    · simp only [hcl, Bool.not_true, if_neg (by decide : ¬ (false = true))] at h
      rcases hv : validateStorageAccountName
          (deriveStorageAccountName opts.Name opts.StorageAccountName) with e | u2
      · simp only [hv] at h
        exact Or.inl (mem_defaultingLogs_trace h)
      · simp only [hv] at h
        rcases hflag : opts.DeleteOIDCResourceGroup with _ | _
        · simp only [hflag, if_neg (by decide : ¬ (false = true))] at h
          rcases hmi : deleteManagedIdentities env.client opts.Name
              (deriveOIDCResourceGroupName opts.Name opts.OIDCResourceGroupName)
              opts.SubscriptionID opts.Region with ⟨tr, r⟩
          simp only [hmi] at h
          rcases r with _ | e | _
          · rcases hsa : deleteStorageAccount env.client
                (deriveOIDCResourceGroupName opts.Name opts.OIDCResourceGroupName)
                (deriveStorageAccountName opts.Name opts.StorageAccountName) with ⟨tr2, r2⟩
            simp only [hsa] at h
            have hsplit : ev ∈ defaultingLogs opts ++ tr ∨ ev ∈ tr2 := by
              rcases r2 with e | u3 <;>
                simpa [List.mem_append, or_assoc] using h
            rcases hsplit with hin | hin
            · rcases List.mem_append.mp hin with hin | hin
              · exact Or.inl (mem_defaultingLogs_trace hin)
              · rcases mem_deleteManagedIdentities_trace (by rw [hmi]; exact hin) with
                  h1 | h1 | h1
                · exact Or.inr (Or.inr ⟨rfl, Or.inl h1⟩)
                · exact Or.inr (Or.inr ⟨rfl, Or.inr (Or.inl h1)⟩)
                · exact Or.inl h1
            · rcases mem_deleteStorageAccount_trace (by rw [hsa]; exact hin) with h1 | h1
              · exact Or.inr (Or.inr ⟨rfl, Or.inr (Or.inr h1)⟩)
              · exact Or.inl h1
          · rcases List.mem_append.mp h with hin | hin
            · exact Or.inl (mem_defaultingLogs_trace hin)
            · rcases mem_deleteManagedIdentities_trace (by rw [hmi]; exact hin) with
                h1 | h1 | h1
              · exact Or.inr (Or.inr ⟨rfl, Or.inl h1⟩)
              · exact Or.inr (Or.inr ⟨rfl, Or.inr (Or.inl h1)⟩)
              · exact Or.inl h1
          · rcases List.mem_append.mp h with hin | hin
            · exact Or.inl (mem_defaultingLogs_trace hin)
            · rcases mem_deleteManagedIdentities_trace (by rw [hmi]; exact hin) with
                h1 | h1 | h1
              · exact Or.inr (Or.inr ⟨rfl, Or.inl h1⟩)
              · exact Or.inr (Or.inr ⟨rfl, Or.inr (Or.inl h1)⟩)
              · exact Or.inl h1
        · simp only [hflag, if_pos rfl] at h
          rcases hrg : deleteResourceGroup env.client
              (deriveOIDCResourceGroupName opts.Name opts.OIDCResourceGroupName) with ⟨tr, r⟩
          simp only [hrg] at h
          have hin : ev ∈ defaultingLogs opts ++ tr := by
            rcases r with e | u3 <;> simpa using h
          rcases List.mem_append.mp hin with hin | hin
          · exact Or.inl (mem_defaultingLogs_trace hin)
          · rcases mem_deleteResourceGroup_trace (by rw [hrg]; exact hin) with h1 | h1
            · exact Or.inr (Or.inl ⟨rfl, h1⟩)
            · exact Or.inl h1

/-- The trace of any `deleteCmd` run splits into a storage-free part followed
by an identity-free part. -/
theorem deleteCmd_trace_split (opts : azureOptions) (env : DeleteEnv) :
    ∃ l₁ l₂, (deleteCmd opts env).1 = l₁ ++ l₂ ∧
      (∀ ev ∈ l₁, ev.isStorageAccountDelete = false) ∧
      (∀ ev ∈ l₂, ev.isDeleteIdentity = false) := by
  have hlog : ∀ (ev : Event), ev.isLog = true → ev.isStorageAccountDelete = false := by
    intro ev h
    rcases ev <;> simp at h ⊢
  have hlog' : ∀ (ev : Event), ev.isLog = true → ev.isDeleteIdentity = false := by
    intro ev h
    rcases ev <;> simp at h ⊢
  rw [deleteCmd]
  rcases hcr : env.credResult with e | u
  · exact ⟨[], [], by simp, by simp, by simp⟩
  · rcases hcl : env.clientOk with _ | _
    · exact ⟨[], [], by simp, by simp, by simp⟩
    · simp only [hcl, Bool.not_true, if_neg (by decide : ¬ (false = true))]
      rcases hv : validateStorageAccountName
          (deriveStorageAccountName opts.Name opts.StorageAccountName) with e | u2
      · exact ⟨defaultingLogs opts, [], by simp,
          fun ev hev => hlog ev (mem_defaultingLogs_trace hev), by simp⟩
      · rcases hflag : opts.DeleteOIDCResourceGroup with _ | _
        · simp only [if_neg (by decide : ¬ (false = true))]
          rcases hmi : deleteManagedIdentities env.client opts.Name
              (deriveOIDCResourceGroupName opts.Name opts.OIDCResourceGroupName)
              opts.SubscriptionID opts.Region with ⟨tr, r⟩
          have htr : ∀ ev ∈ tr, ev.isStorageAccountDelete = false := by
            intro ev hev
            rcases mem_deleteManagedIdentities_trace (by rw [hmi]; exact hev) with
              h1 | h1 | h1
            · subst h1; rfl
            · rcases ev <;> simp at h1 ⊢
            · exact hlog ev h1
          have hdl : ∀ ev ∈ defaultingLogs opts ++ tr, ev.isStorageAccountDelete = false := by
            intro ev hev
            rcases List.mem_append.mp hev with hev | hev
            · exact hlog ev (mem_defaultingLogs_trace hev)
            · exact htr ev hev
          rcases r with _ | e | _
          · rcases hsa : deleteStorageAccount env.client
                (deriveOIDCResourceGroupName opts.Name opts.OIDCResourceGroupName)
                (deriveStorageAccountName opts.Name opts.StorageAccountName) with ⟨tr2, r2⟩
            have htr2 : ∀ ev ∈ tr2, ev.isDeleteIdentity = false := by
              intro ev hev
              rcases mem_deleteStorageAccount_trace (by rw [hsa]; exact hev) with h1 | h1
              · rcases ev <;> simp at h1 ⊢
              · exact hlog' ev h1
            refine ⟨defaultingLogs opts ++ tr, tr2, ?_, hdl, htr2⟩
            rcases r2 with e | u3 <;> simp
          · exact ⟨defaultingLogs opts ++ tr, [], by simp, hdl, by simp⟩
          · exact ⟨defaultingLogs opts ++ tr, [], by simp, hdl, by simp⟩
        · simp only [if_pos rfl]
          rcases hrg : deleteResourceGroup env.client
              (deriveOIDCResourceGroupName opts.Name opts.OIDCResourceGroupName) with ⟨tr, r⟩
          have htr : ∀ ev ∈ tr, ev.isStorageAccountDelete = false := by
            intro ev hev
            rcases mem_deleteResourceGroup_trace (by rw [hrg]; exact hev) with h1 | h1
            · rcases ev <;> simp at h1 ⊢
            · exact hlog ev h1
          refine ⟨defaultingLogs opts ++ tr, [], ?_, ?_, by simp⟩
          · rcases r with e | u3 <;> simp
          · intro ev hev
            rcases List.mem_append.mp hev with hev | hev
            · exact hlog ev (mem_defaultingLogs_trace hev)
            · exact htr ev hev

/-- C1: Path exclusivity.  For every configuration with
`DeleteOIDCResourceGroup = true` and every environment, every event of the
delete command is a resource-group deletion call or a log line — the
managed-identity delete loop (its page fetches and delete calls) and the
storage-account delete call are never invoked, regardless of all other
flags, and the command then terminates. -/
theorem deleteCmd_group_path_exclusive (opts : azureOptions) (env : DeleteEnv) :
    ((deleteCmd { opts with DeleteOIDCResourceGroup := true } env).1.all
      (fun ev => ev.isResourceGroupCall || ev.isLog)) = true := by
  obtain ⟨n, r, s, org, san, d, dr⟩ := opts
  rw [List.all_eq_true]
  intro ev hev
  rcases mem_deleteCmd_trace hev with h | h | h
  · rcases ev <;> simp at h ⊢
  · have h2 := h.2
    rcases ev <;> simp at h2 ⊢
  · exact absurd h.1 (by simp)

/-- C2: Fine-grained ordering.  With `DeleteOIDCResourceGroup = false`:
no identity delete call ever follows a storage-account delete call in the
trace; if `deleteManagedIdentities` fails, the command issues no
storage-account delete call at all; and a failing delete of a single identity
ends the identity loop immediately with that error, visiting no further
identity. -/
theorem deleteCmd_fine_grained_ordering (opts : azureOptions) (env : DeleteEnv) :
    noIdentityAfterStorage (deleteCmd { opts with DeleteOIDCResourceGroup := false } env).1 = true
    ∧ (∀ e, (deleteManagedIdentities env.client opts.Name
          (deriveOIDCResourceGroupName opts.Name opts.OIDCResourceGroupName)
          opts.SubscriptionID opts.Region).2 = .err e →
        ((deleteCmd { opts with DeleteOIDCResourceGroup := false } env).1.all
          (fun ev => ! ev.isStorageAccountDelete)) = true)
    ∧ (∀ (c : AzureClientWrapper) (rg nm e : String) (idRec : Identity)
          (rest : List Identity),
        idRec.name = some nm → c.deleteIdentityResult rg nm = .error e →
        deleteLoop c rg (idRec :: rest) = ([.deleteIdentity rg nm], .err e)) := by
  refine ⟨?_, ?_, ?_⟩
  · obtain ⟨l₁, l₂, heq, h₁, h₂⟩ :=
      deleteCmd_trace_split { opts with DeleteOIDCResourceGroup := false } env
    rw [heq]
    exact noIdentityAfterStorage_append h₁ h₂
  · intro e hmi
    obtain ⟨n, r, s, org, san, d, dr⟩ := opts
    rw [List.all_eq_true]
    intro ev hev
    rcases mem_deleteCmd_trace hev with h | h | h
    · rcases ev <;> simp at h ⊢
    · exact absurd h.1 (by simp)
    · -- fine-grained path with a failing identity deletion: the command
      -- aborts before the storage step, so no storage event can be present;
      -- membership still only tells us the event kind, so rule out the
      -- storage kind via the command structure
      rcases h.2 with h2 | h2 | h2
      · subst h2; rfl
      · rcases ev <;> simp at h2 ⊢
      · -- a storage event: impossible, the run ends with the identity error
        exfalso
        rw [deleteCmd] at hev
        rcases hcr : env.credResult with e' | u
        · simp only [hcr] at hev
          simp at hev
        · simp only [hcr] at hev
          rcases hcl : env.clientOk with _ | _
          · simp only [hcl] at hev
            simp at hev
          · simp only [hcl, Bool.not_true,
              if_neg (by decide : ¬ (false = true))] at hev
            rcases hv : validateStorageAccountName
                (deriveStorageAccountName n san) with e' | u2
            · simp only [hv] at hev
              have := mem_defaultingLogs_trace hev
              rcases ev <;> simp at this h2
            · rw [hv] at hev
              simp only [if_neg (by decide : ¬ (false = true))] at hev
              rcases hmi' : deleteManagedIdentities env.client n
                  (deriveOIDCResourceGroupName n org) s r with ⟨tr, r'⟩
              rw [hmi'] at hmi
              simp at hmi
              subst hmi
              simp only [hmi'] at hev
              rcases List.mem_append.mp hev with hin | hin
              · have := mem_defaultingLogs_trace hin
                rcases ev <;> simp at this h2
              · rcases mem_deleteManagedIdentities_trace
                    (by rw [hmi']; exact hin) with h3 | h3 | h3
                · subst h3; simp at h2
                · rcases ev <;> simp at h3 h2
                · rcases ev <;> simp at h3 h2
  · intro c rg nm e idRec rest h1 h2
    rw [deleteLoop]
    simp only [h1, h2]

/-- C2 witness: a concrete run in which the single owned identity's delete
call fails with "boom": `deleteManagedIdentities` reports that error and the
command's trace contains no storage-account delete call. -/
theorem deleteCmd_fine_grained_ordering_witness :
    (deleteManagedIdentities (wEnv failIdentityClient).client wOpts.Name
        (deriveOIDCResourceGroupName wOpts.Name wOpts.OIDCResourceGroupName)
        wOpts.SubscriptionID wOpts.Region).2 = .err ("boom")
    ∧ ((deleteCmd { wOpts with DeleteOIDCResourceGroup := false }
          (wEnv failIdentityClient)).1.all
        (fun ev => ! ev.isStorageAccountDelete)) = true :=
  ⟨by decide, (deleteCmd_fine_grained_ordering wOpts
      (wEnv failIdentityClient)).2.1 ("boom") (by decide)⟩

/-- The storage-account deletion always issues its delete call, whatever the
call's result. -/
theorem deleteStorageAccount_any_storage (c : AzureClientWrapper) (rg sa : String) :
    ((deleteStorageAccount c rg sa).1.any (fun ev => ev.isStorageAccountDelete)) = true := by
  rw [deleteStorageAccount]
  rcases hs : c.deleteStorageAccountResult rg sa with e | u <;> simp

/-- C3: Ownership filter.  A record passes the ownership test iff its tag map
holds the key `"<fixed-prefix>_<name>"` mapped to exactly the sentinel
`"owned"`; an absent key or any other string value yields `false` (never an
error); and a page's selected identities are exactly those passing the test. -/
theorem ownedTagTest_selection (tags : List (String × Option String)) (name : String) :
    (ownedTagTest tags (ownedTagKeyOf name) = .ok true ↔
      lookupTag tags (ownedTagKeyOf name) = some (some ownedAzureResourceTagValue))
    ∧ (lookupTag tags (ownedTagKeyOf name) = none →
      ownedTagTest tags (ownedTagKeyOf name) = .ok false)
    ∧ (∀ v, v ≠ ownedAzureResourceTagValue →
      lookupTag tags (ownedTagKeyOf name) = some (some v) →
      ownedTagTest tags (ownedTagKeyOf name) = .ok false)
    ∧ (∀ (p sel : List Identity) (idRec : Identity),
      filterPage (ownedTagKeyOf name) p = .ok sel →
      (idRec ∈ sel ↔ idRec ∈ p ∧ ownedTagTest idRec.tags (ownedTagKeyOf name) = .ok true)) := by
  refine ⟨?_, ?_, ?_, ?_⟩
  · constructor
    · intro h
      rw [ownedTagTest] at h
      rcases hlk : lookupTag tags (ownedTagKeyOf name) with _ | v
      · simp only [hlk] at h
        simp at h
      · rcases v with _ | s
        · simp only [hlk] at h
          simp at h
        · simp only [hlk] at h
          simp at h
          rw [h]
    · intro h
      rw [ownedTagTest, h]
      simp
  · intro h
    rw [ownedTagTest, h]
  · intro v hv h
    rw [ownedTagTest, h]
    simp [hv]
  · intro p sel idRec h
    exact filterPage_mem h idRec

/-- C3 witness: the tag map of `ownedIdentity` holds the owned key mapped to
"owned", and the ownership test selects it. -/
theorem ownedTagTest_selection_witness :
    lookupTag (ownedIdentity.tags) (ownedTagKeyOf ("cluster1")) =
      some (some ownedAzureResourceTagValue)
    ∧ ownedTagTest (ownedIdentity.tags) (ownedTagKeyOf ("cluster1")) = .ok true :=
  ⟨by decide, (ownedTagTest_selection (ownedIdentity.tags) ("cluster1")).1.mpr (by decide)⟩

/-- C4: Discovery atomicity on failure.  When the pager yields some ok pages
and then a failing fetch, `deleteManagedIdentities` returns that fetch error
and its trace contains no identity delete call: the partial list accumulated
from the earlier pages is never acted upon. -/
theorem deleteManagedIdentities_page_error (c : AzureClientWrapper)
    (name rg sub region e : String) (okPages : List (List Identity))
    (rest : List (Except String (List Identity)))
    (hclean : ∀ p ∈ okPages, ∀ idRec ∈ p,
      lookupTag idRec.tags (ownedTagKeyOf name) ≠ some none) :
    (deleteManagedIdentities
        { c with pages := okPages.map Except.ok ++ Except.error e :: rest }
        name rg sub region).2 = .err e
    ∧ ((deleteManagedIdentities
        { c with pages := okPages.map Except.ok ++ Except.error e :: rest }
        name rg sub region).1.all (fun ev => ! ev.isDeleteIdentity)) = true := by
  have herr := @discoverPages_error (ownedTagKeyOf name) rg e okPages rest hclean
  rcases hd : discoverPages (ownedTagKeyOf name) rg
      (okPages.map Except.ok ++ Except.error e :: rest) with ⟨tr, r⟩
  rw [hd] at herr
  simp at herr
  subst herr
  constructor
  · simp only [deleteManagedIdentities, hd]
  · simp only [deleteManagedIdentities, hd]
    rw [List.all_eq_true]
    intro ev hev
    have hpf := @mem_discoverPages_trace (ownedTagKeyOf name) rg
      (okPages.map Except.ok ++ Except.error e :: rest) ev
      (by rw [hd]; exact hev)
    subst hpf
    rfl

/-- C4 witness: one ok page holding an owned identity followed by a failing
fetch: the error is returned and no delete call is issued. -/
theorem deleteManagedIdentities_page_error_witness :
    (deleteManagedIdentities
        { okClient with pages := ([[ownedIdentity]].map Except.ok ++
          Except.error ("fetch failed") :: []) }
        ("cluster1") ("cluster1-oidc") ("sub") ("eastus")).2 = .err ("fetch failed")
    ∧ ((deleteManagedIdentities
        { okClient with pages := ([[ownedIdentity]].map Except.ok ++
          Except.error ("fetch failed") :: []) }
        ("cluster1") ("cluster1-oidc") ("sub") ("eastus")).1.all
        (fun ev => ! ev.isDeleteIdentity)) = true :=
  deleteManagedIdentities_page_error okClient ("cluster1") ("cluster1-oidc")
    ("sub") ("eastus") ("fetch failed") [[ownedIdentity]] [] (by decide)

/-- C5: Empty discovery is success.  When every page is fetched and the
filtered set is empty, `deleteManagedIdentities` returns ok, logs the
informational "Found no ..." line, and issues no delete call; the fine-grained
command run then still issues the storage-account delete call. -/
theorem deleteCmd_empty_discovery (opts : azureOptions) (env : DeleteEnv)
    (okPages : List (List Identity))
    (hpages : env.client.pages = okPages.map Except.ok)
    (hempty : ∀ p ∈ okPages, filterPage (ownedTagKeyOf opts.Name) p = .ok [])
    (hcred : env.credResult = .ok ())
    (hclient : env.clientOk = true)
    (hval : validateStorageAccountName
      (deriveStorageAccountName opts.Name opts.StorageAccountName) = .ok ()) :
    (deleteManagedIdentities env.client opts.Name
      (deriveOIDCResourceGroupName opts.Name opts.OIDCResourceGroupName)
      opts.SubscriptionID opts.Region).2 = .ok
    ∧ Event.logLine ("Found no user-assigned managed identities with tag key=" ++
        ownedTagKeyOf opts.Name ++ ", value=" ++ ownedAzureResourceTagValue) ∈
      (deleteManagedIdentities env.client opts.Name
        (deriveOIDCResourceGroupName opts.Name opts.OIDCResourceGroupName)
        opts.SubscriptionID opts.Region).1
    ∧ ((deleteManagedIdentities env.client opts.Name
        (deriveOIDCResourceGroupName opts.Name opts.OIDCResourceGroupName)
        opts.SubscriptionID opts.Region).1.all (fun ev => ! ev.isDeleteIdentity)) = true
    ∧ ((deleteCmd { opts with DeleteOIDCResourceGroup := false } env).1.any
        (fun ev => ev.isStorageAccountDelete)) = true := by
  have hdisc := @discoverPages_all_empty (ownedTagKeyOf opts.Name)
    (deriveOIDCResourceGroupName opts.Name opts.OIDCResourceGroupName) okPages hempty
  have hmi : deleteManagedIdentities env.client opts.Name
      (deriveOIDCResourceGroupName opts.Name opts.OIDCResourceGroupName)
      opts.SubscriptionID opts.Region =
      (okPages.map (fun _ => Event.pageFetch
          (deriveOIDCResourceGroupName opts.Name opts.OIDCResourceGroupName)) ++
        [Event.logLine ("Found no user-assigned managed identities with tag key=" ++
          ownedTagKeyOf opts.Name ++ ", value=" ++ ownedAzureResourceTagValue)],
        .ok) := by
    simp only [deleteManagedIdentities, hpages, hdisc]
  refine ⟨by rw [hmi], by rw [hmi]; simp, ?_, ?_⟩
  · rw [hmi]
    rw [List.all_eq_true]
    intro ev hev
    rcases List.mem_append.mp hev with h | h
    · obtain ⟨p, hp, hpe⟩ := List.mem_map.mp h
      subst hpe
      rfl
    · simp at h
      subst h
      rfl
  · obtain ⟨n, r, s, org, san, d, dr⟩ := opts
    rw [deleteCmd]
    rw [hcred]
    simp only [hclient, Bool.not_true, if_neg (by decide : ¬ (false = true))]
    rw [hval]
    simp only [if_neg (by decide : ¬ (false = true))]
    rw [hmi]
    rcases hsa : deleteStorageAccount env.client
        (deriveOIDCResourceGroupName n org) (deriveStorageAccountName n san) with ⟨tr2, r2⟩
    have hany := deleteStorageAccount_any_storage env.client
      (deriveOIDCResourceGroupName n org) (deriveStorageAccountName n san)
    rw [hsa] at hany
    rcases r2 with e | u3 <;> simp [List.any_append] <;> simp at hany <;>
      · right
        exact hany

/-- C5 witness: a single page holding only an unowned identity: discovery is
empty, `deleteManagedIdentities` succeeds, and the command still issues the
storage-account delete. -/
theorem deleteCmd_empty_discovery_witness :
    validateStorageAccountName
      (deriveStorageAccountName wOpts.Name wOpts.StorageAccountName) = .ok ()
    ∧ (deleteManagedIdentities (wEnv emptyClient).client wOpts.Name
        (deriveOIDCResourceGroupName wOpts.Name wOpts.OIDCResourceGroupName)
        wOpts.SubscriptionID wOpts.Region).2 = .ok
    ∧ ((deleteCmd { wOpts with DeleteOIDCResourceGroup := false }
        (wEnv emptyClient)).1.any (fun ev => ev.isStorageAccountDelete)) = true :=
  ⟨rfl,
    (deleteCmd_empty_discovery wOpts (wEnv emptyClient) [[unownedIdentity]]
      rfl (by decide) rfl rfl rfl).1,
    (deleteCmd_empty_discovery wOpts (wEnv emptyClient) [[unownedIdentity]]
      rfl (by decide) rfl rfl rfl).2.2.2⟩

/-- C6: Name-derivation defaulting.  For a non-empty name, an empty OIDC
resource-group override defaults to the name plus the fixed suffix and an
empty storage-account override defaults to the name itself; a non-empty
override of either is returned verbatim. -/
theorem name_derivation_defaulting (name override : String) (hname : name ≠ "") :
    deriveOIDCResourceGroupName name "" = name ++ oidcResourceGroupSuffix
    ∧ deriveStorageAccountName name "" = name
    ∧ (override ≠ "" →
      deriveOIDCResourceGroupName name override = override
      ∧ deriveStorageAccountName name override = override) := by
  refine ⟨rfl, rfl, fun h => ⟨?_, ?_⟩⟩
  · rw [deriveOIDCResourceGroupName, if_neg (by simpa using h)]
  · rw [deriveStorageAccountName, if_neg (by simpa using h)]

/-- C6 witness: defaulting and verbatim override at name "cluster1" and
override "myrg". -/
theorem name_derivation_defaulting_witness :
    ("cluster1" : String) ≠ "" ∧ ("myrg" : String) ≠ ""
    ∧ deriveOIDCResourceGroupName ("cluster1") "" = "cluster1" ++ oidcResourceGroupSuffix
    ∧ deriveStorageAccountName ("cluster1") "" = "cluster1"
    ∧ deriveOIDCResourceGroupName ("cluster1") ("myrg") = "myrg"
    ∧ deriveStorageAccountName ("cluster1") ("myrg") = "myrg" := by
  have h := name_derivation_defaulting ("cluster1") ("myrg") (by decide)
  exact ⟨by decide, by decide, h.1, h.2.1, (h.2.2 (by decide)).1, (h.2.2 (by decide)).2⟩

/-- C7 counterexample: with the poll failing with "context deadline exceeded"
for resource group "cluster1-oidc", `deleteResourceGroup` returns that
provider error verbatim: no context naming the resource group is added (the
group name does not occur in the returned message). -/
theorem deleteResourceGroup_poll_error_counterexample :
    (deleteResourceGroup pollFailClient ("cluster1-oidc")).2 =
      Except.error ("context deadline exceeded")
    ∧ ¬ ("cluster1-oidc".toList <:+: "context deadline exceeded".toList) :=
  ⟨rfl, by decide⟩

/-- C7 (amended): when begin-delete succeeds and polling fails, the poll
error is returned unchanged, with no added context; when begin-delete fails
the error is wrapped with the fixed text "failed to delete resource group",
which does not name the group; the poll call always uses the fixed 10-second
frequency, and no further option is passed to the polling primitive. -/
theorem deleteResourceGroup_error_propagation (c : AzureClientWrapper) (rg e : String) :
    (c.beginDeleteResult rg = .ok () → c.pollResult rg = .error e →
      deleteResourceGroup c rg =
        ([.beginDeleteResourceGroup rg, .pollUntilDone rg 10], .error e))
    ∧ (c.beginDeleteResult rg = .error e →
      deleteResourceGroup c rg =
        ([.beginDeleteResourceGroup rg],
          .error (errWrap e ("failed to delete resource group")))) := by
  constructor
  · intro h1 h2
    rw [deleteResourceGroup]
    simp only [h1, h2]
  · intro h1
    rw [deleteResourceGroup]
    simp only [h1]

/-- C7 witness: the amended behaviour at the concrete poll-failing client. -/
theorem deleteResourceGroup_error_propagation_witness :
    pollFailClient.beginDeleteResult ("cluster1-oidc") = .ok ()
    ∧ pollFailClient.pollResult ("cluster1-oidc") = .error ("context deadline exceeded")
    ∧ deleteResourceGroup pollFailClient ("cluster1-oidc") =
      ([.beginDeleteResourceGroup ("cluster1-oidc"),
        .pollUntilDone ("cluster1-oidc") 10],
        .error ("context deadline exceeded")) :=
  ⟨rfl, rfl, (deleteResourceGroup_error_propagation pollFailClient ("cluster1-oidc")
    ("context deadline exceeded")).1 rfl rfl⟩

/-- C8: Dry-run noninterference.  Two delete-command runs whose configurations
differ only in `DryRun` have identical traces and outcomes: the flag is
accepted but never consulted, so the real deletions are performed even with
`DryRun = true`. -/
theorem deleteCmd_dryRun_noninterference (opts : azureOptions) (env : DeleteEnv)
    (b₁ b₂ : Bool) :
    deleteCmd { opts with DryRun := b₁ } env = deleteCmd { opts with DryRun := b₂ } env := by
  obtain ⟨n, r, s, org, san, d, dr⟩ := opts
  rfl

/-- C10: Region and subscription noninterference.  The result and the event
sequence of `deleteManagedIdentities` are independent of its `subscriptionID`
and `region` arguments. -/
theorem deleteManagedIdentities_region_subscription_noninterference
    (c : AzureClientWrapper) (name rg s₁ s₂ r₁ r₂ : String) :
    deleteManagedIdentities c name rg s₁ r₁ = deleteManagedIdentities c name rg s₂ r₂ := rfl

/-- C9: Implicit nil-pointer precondition.  Under `MIPrecond` — every listed
identity whose tag map contains the owned key holds a non-nil value pointer
there, and every identity passing the ownership test has non-nil `Name`,
`Type` and `ID` — `deleteManagedIdentities` never panics; and at a concrete
client violating the precondition (an owned identity with nil pointers) the
operation panics rather than returning an error. -/
theorem deleteManagedIdentities_panic_freedom :
    (∀ (c : AzureClientWrapper) (name rg sub region : String), MIPrecond c name →
      (deleteManagedIdentities c name rg sub region).2 ≠ .panicked)
    ∧ (deleteManagedIdentities badIdentityClient ("cluster1") ("cluster1-oidc")
        ("sub") ("eastus")).2 = .panicked
    ∧ ¬ MIPrecond badIdentityClient ("cluster1") := by
  refine ⟨?_, by decide, ?_⟩
  · intro c name rg sub region hpre
    have hclean : ∀ ids, Except.ok ids ∈ c.pages → ∀ idRec ∈ ids,
        lookupTag idRec.tags (ownedTagKeyOf name) ≠ some none :=
      fun ids hin idRec hm => (hpre ids hin idRec hm).1
    have hnp := @discoverPages_no_panic (ownedTagKeyOf name) rg c.pages hclean
    rcases hd : discoverPages (ownedTagKeyOf name) rg c.pages with ⟨tr, r⟩
    rw [hd] at hnp
    simp at hnp
    rcases r with ids | e | _
    · rcases ids with _ | ⟨a, rest⟩
      · simp [deleteManagedIdentities, hd]
      · have hfields : ∀ idRec ∈ a :: rest,
            idRec.name ≠ none ∧ idRec.type ≠ none ∧ idRec.id ≠ none := by
          intro idRec hm
          obtain ⟨ids0, hin, hm0, htest⟩ := discoverPages_ok_mem hd hm
          exact (hpre ids0 hin idRec hm0).2 htest
        have hloop := @deleteLoop_no_panic c rg (a :: rest) hfields
        rcases hl : deleteLoop c rg (a :: rest) with ⟨tr2, r2⟩
        rw [hl] at hloop
        simp at hloop
        simp [deleteManagedIdentities, hd, hl]
        exact hloop
    · simp [deleteManagedIdentities, hd]
    · exact absurd rfl hnp
  · intro h
    have h2 := h [nilNameIdentity] (by simp [badIdentityClient, okClient])
      nilNameIdentity (List.mem_cons_self _ _)
    have h3 := (h2.2 (by decide)).1
    exact h3 rfl

/-- C9 witness: a well-formed owned identity satisfies the precondition and
the run does not panic. -/
theorem deleteManagedIdentities_panic_freedom_witness :
    MIPrecond goodMIClient ("cluster1")
    ∧ (deleteManagedIdentities goodMIClient ("cluster1") ("cluster1-oidc")
        ("sub") ("eastus")).2 ≠ .panicked := by
  have hpre : MIPrecond goodMIClient ("cluster1") := by
    intro ids hin idRec hm
    simp [goodMIClient, okClient] at hin
    subst hin
    simp at hm
    subst hm
    refine ⟨by decide, fun _ => ⟨by decide, by decide, by decide⟩⟩
  exact ⟨hpre, deleteManagedIdentities_panic_freedom.1 goodMIClient ("cluster1")
    ("cluster1-oidc") ("sub") ("eastus") hpre⟩
